import Mathlib

/-
Shallow embedding of tera's compaction decision engine,
src/src/io/default_compact_strategy.cc.

The single source file under src/ implements DefaultCompactStrategy:
the streaming decision variant `Drop`, the scanning variant `ScanDrop`,
the merge entry points `ScanMergedValue` / `MergeAtomicOPs` and the
shared loop `InternalMergeProcess`, plus `DropByColumnFamily` and the
factory `DefaultCompactStrategyFactory::NewInstance`.

Collaborators that live elsewhere in the repository (db/dbformat.h's
TeraKeyType enum, io/atomic_merge_strategy.h's IsAtomicOP and
AtomicMergeStrategy, the raw-key operator, the class header with the
member fields) are modelled from the spec where noted; records enter
the model already decoded, since the key decoder is specified as an
external, deterministic collaborator.
-/

namespace TeraCompact

/-- Modelled from the spec: the record-type enum of db/dbformat.h (not under
src/). The spec lists Value, the four delete markers, and an open-ended
family of atomic mutation types (add, append, ...); anything that is not
Value or a delete marker is classified atomic. -/
inductive TeraKeyType where
  | tktDel
  | tktDelColumn
  | tktDelQualifiers
  | tktDelQualifier
  | tktValue
  | tktAdd
  | tktAddInt64
  | tktPutIfAbsent
  | tktAppend
deriving DecidableEq, Repr

open TeraKeyType

/-- Modelled from the spec: io/atomic_merge_strategy.h's IsAtomicOP (not under
src/): a record type is atomic exactly when it is neither Value nor one of the
delete markers. -/
def IsAtomicOP : TeraKeyType → Bool
  | tktAdd => true
  | tktAddInt64 => true
  | tktPutIfAbsent => true
  | tktAppend => true
  | _ => false

/-- A decoded tera record: the tuple produced by ExtractTeraKey together with
the record's value bytes. Byte strings are modelled as Lean strings (only
equality comparison is used by the code under src/). -/
structure Record where
  key : String
  col : String
  qual : String
  ts : Int
  type : TeraKeyType
  value : String
deriving DecidableEq, Repr

/-- One column-family descriptor of the table schema: name and max_versions. -/
structure ColumnFamilySchema where
  name : String
  max_versions : Nat
deriving DecidableEq, Repr

/-- The table schema: the ordered column-family list. -/
abbrev TableSchema := List ColumnFamilySchema

/-- The m_cf_indexs map built in the constructor: for i ascending,
m_cf_indexs[name_i] = i, so a later index overwrites an earlier one with the
same name. Lookup returns the stored index, none when the name is absent. -/
def cfIndexs (schema : TableSchema) (name : String) : Option Nat :=
  schema.enum.foldl (fun acc p => if p.2.name = name then some p.1 else acc) none

/-- DefaultCompactStrategy::DropByColumnFamily (lines 296-307): returns
(drop?, cf_idx): drop and no index when the column family is absent from
m_cf_indexs, otherwise keep and the stored index. -/
def DropByColumnFamily (schema : TableSchema) (column_family : String) :
    Bool × Option Nat :=
  match cfIndexs schema column_family with
  | none => (true, none)
  | some i => (false, some i)

/-- m_schema.column_families(cf_id).max_versions(): schema indexing used at
lines 102 and 289. Only evaluated at indexes produced by DropByColumnFamily,
which are in range. -/
def maxVersionsOf (schema : TableSchema) (cf_id : Nat) : Nat :=
  (schema.getD cf_id ⟨"", 0⟩).max_versions

/-- The mutable per-job fields of DefaultCompactStrategy. -/
structure CompactState where
  m_last_key : String
  m_last_col : String
  m_last_qual : String
  m_last_type : TeraKeyType
  m_del_row_ts : Int
  m_del_col_ts : Int
  m_del_qual_ts : Int
  m_version_num : Nat
  m_has_put : Bool
  m_cur_type : TeraKeyType
  m_cur_ts : Int
deriving DecidableEq, Repr

/-- The cascading switch on a row boundary (lines 57-65 and 218-226, identical
in both variants): TKT_DEL falls through and seeds row, column and qualifier
tombstones; TKT_DEL_COLUMN seeds column and qualifier; TKT_DEL_QUALIFIERS
seeds only the qualifier tombstone. -/
def seedRowBoundary (t : TeraKeyType) (ts : Int) (s : CompactState) : CompactState :=
  match t with
  | tktDel => { s with m_del_row_ts := ts, m_del_col_ts := ts, m_del_qual_ts := ts }
  | tktDelColumn => { s with m_del_col_ts := ts, m_del_qual_ts := ts }
  | tktDelQualifiers => { s with m_del_qual_ts := ts }
  | _ => s

/-- The cascading switch on a column-family boundary (lines 76-82 and 238-244,
identical in both variants). -/
def seedColBoundary (t : TeraKeyType) (ts : Int) (s : CompactState) : CompactState :=
  match t with
  | tktDelColumn => { s with m_del_col_ts := ts, m_del_qual_ts := ts }
  | tktDelQualifiers => { s with m_del_qual_ts := ts }
  | _ => s

/-- The scratch-field writes m_cur_type = type; m_cur_ts = ts at the top of
both decision calls (lines 41-42 and 200-201). -/
def setCur (r : Record) (s : CompactState) : CompactState :=
  { s with m_cur_type := r.type, m_cur_ts := r.ts }

/-- The row-boundary reset block of Drop (lines 51-56): new last-key
components, all tombstones back to the -1 sentinel, version count and has-put
cleared. -/
def rowReset (r : Record) (s : CompactState) : CompactState :=
  { s with m_last_key := r.key, m_last_col := r.col, m_last_qual := r.qual,
           m_del_row_ts := -1, m_del_col_ts := -1, m_del_qual_ts := -1,
           m_version_num := 0, m_has_put := false }

/-- The column-family-boundary reset block of Drop (lines 71-75). -/
def colReset (r : Record) (s : CompactState) : CompactState :=
  { s with m_last_col := r.col, m_last_qual := r.qual,
           m_del_col_ts := -1, m_del_qual_ts := -1,
           m_version_num := 0, m_has_put := false }

/-- The qualifier-boundary reset block of Drop (lines 88-91). -/
def qualReset (r : Record) (s : CompactState) : CompactState :=
  { s with m_last_qual := r.qual, m_del_qual_ts := -1,
           m_version_num := 0, m_has_put := false }

/-- The row-boundary reset block of ScanDrop (lines 210-216): like rowReset
but also recording the record's type into m_last_type. -/
def scanRowReset (r : Record) (s : CompactState) : CompactState :=
  { s with m_last_key := r.key, m_last_col := r.col, m_last_qual := r.qual,
           m_last_type := r.type, m_version_num := 0,
           m_del_row_ts := -1, m_del_col_ts := -1, m_del_qual_ts := -1,
           m_has_put := false }

/-- The column-family-boundary reset block of ScanDrop (lines 231-237). -/
def scanColReset (r : Record) (s : CompactState) : CompactState :=
  { s with m_last_col := r.col, m_last_qual := r.qual,
           m_last_type := r.type, m_version_num := 0,
           m_del_col_ts := -1, m_del_qual_ts := -1, m_has_put := false }

/-- The qualifier-boundary reset block of ScanDrop (lines 250-254). -/
def scanQualReset (r : Record) (s : CompactState) : CompactState :=
  { s with m_last_qual := r.qual, m_last_type := r.type,
           m_version_num := 0, m_del_qual_ts := -1, m_has_put := false }

/-- The cf_id both decision calls carry into their tails: the looked-up index,
except that the lookup is skipped for TKT_DEL (lines 43-47 and 202-206). -/
def dropCfId (schema : TableSchema) (r : Record) : Option Nat :=
  if r.type ≠ tktDel then (DropByColumnFamily schema r.col).2 else none

/-- Lines 100-111 of Drop: a Value marks m_has_put, increments m_version_num
and is dropped when the incremented count exceeds max_versions (the
IsAtomicOP check on line 108 is statically false for a Value, so a Value
within the cap is kept); a non-Value record is dropped exactly when it is an
atomic op arriving after a kept Value. -/
def dropTail (schema : TableSchema) (cf_id : Option Nat) (t : TeraKeyType)
    (s : CompactState) : Bool × CompactState :=
  if t = tktValue then
    (if s.m_version_num + 1 > maxVersionsOf schema (cf_id.getD 0) then true else false,
      { s with m_has_put := true, m_version_num := s.m_version_num + 1 })
  else if IsAtomicOP t ∧ s.m_has_put then (true, s)
  else (false, s)

/-- DefaultCompactStrategy::Drop (lines 31-112), on an already decoded record
(the decode-failure branch, lines 36-39, is an unconditional drop and is
outside this model's record type). The boundary comparisons read the last-key
fields and tombstone timestamps of s0 directly, since setCur only writes the
two scratch fields. Returns the verdict (true = drop) and the updated state. -/
def Drop (schema : TableSchema) (s0 : CompactState) (r : Record) :
    Bool × CompactState :=
  if r.type ≠ tktDel ∧ (DropByColumnFamily schema r.col).1 then (true, setCur r s0)
  else if r.key ≠ s0.m_last_key then
    dropTail schema (dropCfId schema r) r.type
      (seedRowBoundary r.type r.ts (rowReset r (setCur r s0)))
  else if s0.m_del_row_ts ≥ r.ts then (true, setCur r s0)
  else if r.col ≠ s0.m_last_col then
    dropTail schema (dropCfId schema r) r.type
      (seedColBoundary r.type r.ts (colReset r (setCur r s0)))
  else if s0.m_del_col_ts > r.ts then (true, setCur r s0)
  else if r.qual ≠ s0.m_last_qual then
    dropTail schema (dropCfId schema r) r.type
      (if r.type = tktDelQualifiers then
        { qualReset r (setCur r s0) with m_del_qual_ts := r.ts }
      else qualReset r (setCur r s0))
  else if s0.m_del_qual_ts > r.ts then (true, setCur r s0)
  else dropTail schema (dropCfId schema r) r.type (setCur r s0)

/-- Lines 275-293 of ScanDrop: a record that is neither Value nor atomic is
dropped; a Value marks m_has_put (making the line 283 atomic check, statically
false for a Value, irrelevant to it), increments m_version_num and is dropped
when the incremented count exceeds max_versions; an atomic op reaching this
tail is dropped exactly when m_has_put is set. The CHECK(cf_id >= 0) on line
287 cannot fire, because every type reaching it passed the column-family
lookup. -/
def scanTail (schema : TableSchema) (cf_id : Option Nat) (t : TeraKeyType)
    (s : CompactState) : Bool × CompactState :=
  if t ≠ tktValue ∧ ¬ IsAtomicOP t then (true, s)
  else if t = tktValue then
    (if s.m_version_num + 1 > maxVersionsOf schema (cf_id.getD 0) then true else false,
      { s with m_has_put := true, m_version_num := s.m_version_num + 1 })
  else if s.m_has_put then (true, s)
  else (false, s)

/-- DefaultCompactStrategy::ScanDrop (lines 190-294), on an already decoded
record. Line 267 reads `if (type = leveldb::TKT_VALUE)`: an assignment, not a
comparison. Modelled from the spec: TKT_VALUE's enum value is nonzero, so the
assignment makes that branch unconditionally true and m_version_num is
incremented for every record taken by the skip-latest-deleted-version branch;
m_last_type was already assigned the original type on the preceding line, and
the overwritten local is not read again before the return. -/
def ScanDrop (schema : TableSchema) (s0 : CompactState) (r : Record) :
    Bool × CompactState :=
  if r.type ≠ tktDel ∧ (DropByColumnFamily schema r.col).1 then (true, setCur r s0)
  else if r.key ≠ s0.m_last_key then
    scanTail schema (dropCfId schema r) r.type
      (seedRowBoundary r.type r.ts (scanRowReset r (setCur r s0)))
  else if s0.m_del_row_ts ≥ r.ts then (true, setCur r s0)
  else if r.col ≠ s0.m_last_col then
    scanTail schema (dropCfId schema r) r.type
      (seedColBoundary r.type r.ts (scanColReset r (setCur r s0)))
  else if s0.m_del_col_ts > r.ts then (true, setCur r s0)
  else if r.qual ≠ s0.m_last_qual then
    scanTail schema (dropCfId schema r) r.type
      (if r.type = tktDelQualifiers then
        { scanQualReset r (setCur r s0) with m_del_qual_ts := r.ts }
      else scanQualReset r (setCur r s0))
  else if s0.m_del_qual_ts > r.ts then (true, setCur r s0)
  else if r.type = tktDelQualifiers then
    scanTail schema (dropCfId schema r) r.type
      { setCur r s0 with m_del_qual_ts := r.ts }
  else if s0.m_last_type = tktDelQualifier then
    -- skip latest deleted version (lines 264-270); the always-true assignment
    -- bug makes the version increment unconditional
    (true, { setCur r s0 with m_last_type := r.type,
                              m_version_num := s0.m_version_num + 1 })
  else
    scanTail schema (dropCfId schema r) r.type
      { setCur r s0 with m_last_type := r.type }

/-- Modelled from the spec: DefaultCompactStrategyFactory::NewInstance
(lines 316-318) builds a fresh strategy; the constructor (lines 13-23) sets
m_has_put to false, and the spec gives the fresh decision state empty last-key
components, the -1 sentinel in every tombstone timestamp and a zero version
count. m_last_type is overwritten on the first boundary before it is read. -/
def NewInstance (_schema : TableSchema) : CompactState :=
  { m_last_key := "", m_last_col := "", m_last_qual := "",
    m_last_type := tktValue,
    m_del_row_ts := -1, m_del_col_ts := -1, m_del_qual_ts := -1,
    m_version_num := 0, m_has_put := false,
    m_cur_type := tktValue, m_cur_ts := -1 }

/-- Feeding a record list through Drop, collecting the verdicts. -/
def runDrop (schema : TableSchema) : CompactState → List Record → List Bool × CompactState
  | s, [] => ([], s)
  | s, r :: rs =>
    let p := Drop schema s r
    let q := runDrop schema p.2 rs
    (p.1 :: q.1, q.2)

/-- Feeding a record list through ScanDrop, collecting the verdicts. -/
def runScanDrop (schema : TableSchema) : CompactState → List Record → List Bool × CompactState
  | s, [] => ([], s)
  | s, r :: rs =>
    let p := ScanDrop schema s r
    let q := runScanDrop schema p.2 rs
    (p.1 :: q.1, q.2)

/-- The while loop of InternalMergeProcess (lines 143-185) over an iterator
modelled as the list of remaining (already decoded) records. The accumulator
is the list of records folded so far by AtomicMergeStrategy (modelled from the
spec: Init seeds it with the current record and each MergeStep appends one
record). Returns the folded list and the records left unconsumed. -/
def mergeLoop (s : CompactState) (merge_put_flag : Bool) :
    Int → Nat → List Record → List Record → List Record × List Record
  | _, _, acc, [] => (acc, [])
  | last_ts_atomic, version_num, acc, r :: rest =>
    if version_num ≥ 1 then (acc, r :: rest)
    else if s.m_last_qual ≠ r.qual ∨ s.m_last_col ≠ r.col ∨ s.m_last_key ≠ r.key then
      (acc, r :: rest)
    else if ¬ IsAtomicOP r.type ∧ r.type ≠ tktValue then (acc, r :: rest)
    else if r.type = tktValue ∧ (¬ merge_put_flag ∨ version_num + 1 > 1) then
      (acc, r :: rest)
    else
      let version_num := if r.type = tktValue then version_num + 1 else version_num
      let acc := if r.ts ≠ last_ts_atomic ∨ r.type = tktValue then acc ++ [r] else acc
      mergeLoop s merge_put_flag r.ts version_num acc rest

/-- DefaultCompactStrategy::InternalMergeProcess (lines 127-188): no-op unless
m_cur_type is atomic; otherwise seeds the accumulator from the current record
(the one the iterator is positioned at, per the call protocol) and runs the
fold loop with last_ts_atomic = m_cur_ts and version_num = 0. is_internal_key
only selects the key-decoding shape (lines 154-166), which the decoded-record
model factors out. Returns (has_merge, folded records, unconsumed records). -/
def InternalMergeProcess (s : CompactState) (cur : Record) (it : List Record)
    (merge_put_flag : Bool) (_is_internal_key : Bool) :
    Bool × List Record × List Record :=
  if ¬ IsAtomicOP s.m_cur_type then (false, [], cur :: it)
  else
    let p := mergeLoop s merge_put_flag s.m_cur_ts 0 [cur] it
    (true, p.1, p.2)

/-- DefaultCompactStrategy::ScanMergedValue (lines 114-118): calls
InternalMergeProcess with merge_put_flag = true and is_internal_key = false. -/
def ScanMergedValue (s : CompactState) (cur : Record) (it : List Record) :
    Bool × List Record × List Record :=
  InternalMergeProcess s cur it true false

/-- DefaultCompactStrategy::MergeAtomicOPs (lines 120-125): calls
InternalMergeProcess with merge_put_flag = false and is_internal_key = true. -/
def MergeAtomicOPs (s : CompactState) (cur : Record) (it : List Record) :
    Bool × List Record × List Record :=
  let merge_put_flag := false
  InternalMergeProcess s cur it merge_put_flag true

/-- The early-return tombstone-suppression chain shared by Drop and ScanDrop
(lines 66, 83, 95 and 227, 245, 258): the record is suppressed when it crosses
no boundary up to the level of an active tombstone whose check fires. -/
abbrev suppressedByTombstone (s : CompactState) (r : Record) : Prop :=
  r.key = s.m_last_key ∧
    (s.m_del_row_ts ≥ r.ts ∨
      (r.col = s.m_last_col ∧
        (s.m_del_col_ts > r.ts ∨
          (r.qual = s.m_last_qual ∧ s.m_del_qual_ts > r.ts))))

/-! Concrete fixtures used by the evaluation theorems below. -/

/-- A one-column-family schema with max_versions = 3. -/
def schemaA : TableSchema := [⟨"cf", 3⟩]

/-- A DeleteQualifierLatest marker at timestamp 10. -/
def delLatestRec : Record := ⟨"r", "cf", "q", 10, tktDelQualifier, ""⟩

/-- An atomic add at timestamp 9, in the same cell as delLatestRec. -/
def atomicRec : Record := ⟨"r", "cf", "q", 9, tktAdd, ""⟩

/-- A decision state positioned on cell ("r", "cf", "q") whose current record
is an atomic add at timestamp 7, as left behind by a decision call on
mergeCur. -/
def mergeState : CompactState :=
  { m_last_key := "r", m_last_col := "cf", m_last_qual := "q",
    m_last_type := tktAdd,
    m_del_row_ts := -1, m_del_col_ts := -1, m_del_qual_ts := -1,
    m_version_num := 0, m_has_put := false,
    m_cur_type := tktAdd, m_cur_ts := 7 }

/-- The atomic record mergeState's current-record cache describes. -/
def mergeCur : Record := ⟨"r", "cf", "q", 7, tktAdd, "a"⟩

/-- A Value record in the same cell, directly below mergeCur. -/
def mergeVal : Record := ⟨"r", "cf", "q", 6, tktValue, "v"⟩

/-- A run of n atomic adds in mergeState's cell. -/
def allAtomicRun (n : Nat) : List Record :=
  List.replicate n ⟨"r", "cf", "q", 0, tktAdd, ""⟩

/-! Helper lemmas about the merge loop. -/

/-- Once the version counter has reached 1, the merge loop consumes nothing. -/
theorem mergeLoop_stopped (s : CompactState) (flag : Bool) (lastTs : Int)
    (vn : Nat) (acc it : List Record) :
    mergeLoop s flag lastTs (vn + 1) acc it = (acc, it) := by
  cases it with
  | nil => simp [mergeLoop]
  | cons r rest => simp [mergeLoop]

/-- The merge loop only appends to its accumulator; the appended records hold
at most 1 - vn Value records, and none at all when merge_put_flag is false. -/
theorem mergeLoop_fold_spec (s : CompactState) (flag : Bool) :
    ∀ (it : List Record) (lastTs : Int) (vn : Nat) (acc : List Record),
      ∃ ext : List Record,
        (mergeLoop s flag lastTs vn acc it).1 = acc ++ ext ∧
        ext.countP (fun x => decide (x.type = tktValue)) ≤ 1 - vn ∧
        (flag = false → ext.countP (fun x => decide (x.type = tktValue)) = 0) := by
  intro it
  induction it with
  | nil =>
    intro lastTs vn acc
    exact ⟨[], by simp [mergeLoop]⟩
  | cons r rest ih =>
    intro lastTs vn acc
    by_cases h1 : vn ≥ 1
    · exact ⟨[], by simp [mergeLoop, h1]⟩
    · have hvn : vn = 0 := by omega
      subst hvn
      by_cases h2 : s.m_last_qual ≠ r.qual ∨ s.m_last_col ≠ r.col ∨ s.m_last_key ≠ r.key
      · exact ⟨[], by simp [mergeLoop, h2]⟩
      · by_cases h3 : ¬ IsAtomicOP r.type ∧ r.type ≠ tktValue
        · exact ⟨[], by simp [mergeLoop, h1, h2, h3]⟩
        · by_cases h4 : r.type = tktValue ∧ (¬ flag ∨ (0 : Nat) + 1 > 1)
          · refine ⟨[], ?_⟩
            have hq : mergeLoop s flag lastTs 0 acc (r :: rest) = (acc, r :: rest) := by
              simp only [mergeLoop]
              rw [if_neg h1, if_neg h2, if_neg h3, if_pos h4]
            rw [hq]
            simp
          · have hstep : mergeLoop s flag lastTs 0 acc (r :: rest)
                = mergeLoop s flag r.ts (if r.type = tktValue then 0 + 1 else 0)
                    (if r.ts ≠ lastTs ∨ r.type = tktValue then acc ++ [r] else acc)
                    rest := by
              simp only [mergeLoop]
              rw [if_neg h1, if_neg h2, if_neg h3, if_neg h4]
            by_cases hv : r.type = tktValue
            · have hflag : flag = true := by
                cases flag with
                | false => exact absurd ⟨hv, Or.inl (by simp)⟩ h4
                | true => rfl
              obtain ⟨ext, he, hc, _⟩ := ih r.ts 1 (acc ++ [r])
              refine ⟨r :: ext, ?_, ?_, ?_⟩
              · rw [hstep, if_pos hv, if_pos (Or.inr hv), he, List.append_assoc,
                  List.singleton_append]
              · have hc0 : ext.countP (fun x => decide (x.type = tktValue)) = 0 := by
                  omega
                simp [List.countP_cons, hv, hc0]
              · intro hf
                rw [hflag] at hf
                exact absurd hf (by simp)
            · by_cases hfold : r.ts ≠ lastTs ∨ r.type = tktValue
              · obtain ⟨ext, he, hc, hz⟩ := ih r.ts 0 (acc ++ [r])
                refine ⟨r :: ext, ?_, ?_, ?_⟩
                · rw [hstep, if_neg hv, if_pos hfold, he, List.append_assoc,
                    List.singleton_append]
                · simpa [List.countP_cons, hv] using hc
                · intro hf
                  simpa [List.countP_cons, hv] using hz hf
              · obtain ⟨ext, he, hc, hz⟩ := ih r.ts 0 acc
                refine ⟨ext, ?_, hc, hz⟩
                rw [hstep, if_neg hv, if_neg hfold, he]

/-- The merge loop consumes an entire in-cell run of atomic records when
merge_put_flag is false: the version counter never advances. -/
theorem mergeLoop_allAtomic (n : Nat) :
    ∀ (lastTs : Int) (acc : List Record),
      (mergeLoop mergeState false lastTs 0 acc (allAtomicRun n)).2 = [] := by
  induction n with
  | zero => intro lastTs acc; simp [allAtomicRun, mergeLoop]
  | succ n ih =>
    intro lastTs acc
    rw [show allAtomicRun (n + 1)
        = (⟨"r", "cf", "q", 0, tktAdd, ""⟩ : Record) :: allAtomicRun n by
      simp [allAtomicRun, List.replicate_succ]]
    simp only [mergeLoop]
    rw [if_neg (by omega), if_neg (by simp [mergeState]),
      if_neg (by simp [IsAtomicOP]), if_neg (by simp)]
    exact ih 0 _

/-! Claim C1. -/

/-- C1: in ScanDrop's skip-latest-deleted-version branch (reached with no
boundary crossed, a non-DeleteQualifierAll record and last_record_type =
DeleteQualifierLatest) the claim says version_count increments only for Value
records. Evaluating the code at the failing input: after a
DeleteQualifierLatest at timestamp 10 followed by an AtomicAdd at timestamp 9
in the same cell, both records are dropped and the AtomicAdd's type is
recorded into m_last_type, but m_version_num ends at 1 although no Value was
seen — line 267's `type = TKT_VALUE` is an assignment, so the increment is
unconditional. -/
theorem claim_C1_bug_eval :
    atomicRec.type ≠ tktValue ∧
    (runScanDrop schemaA (NewInstance schemaA) [delLatestRec, atomicRec]).1
      = [true, true] ∧
    (runScanDrop schemaA (NewInstance schemaA) [delLatestRec, atomicRec]).2.m_last_type
      = tktAdd ∧
    (runScanDrop schemaA (NewInstance schemaA) [delLatestRec, atomicRec]).2.m_version_num
      = 1 := by
  refine ⟨by decide, ?_, ?_, ?_⟩ <;> rfl

/-! Claim C2. -/

/-- C2 counterexample: the claim says ScanMergedValue never folds a trailing
Value record and MergeAtomicOPs folds at most one; in the code the flags are
the other way around. On a concrete stream holding one trailing Value record
in the merged cell, ScanMergedValue folds that Value into its accumulator
while MergeAtomicOPs stops in front of it and leaves it unconsumed. -/
theorem claim_C2_counterexample :
    mergeVal.type = tktValue ∧
    (ScanMergedValue mergeState mergeCur [mergeVal]).2.1 = [mergeCur, mergeVal] ∧
    (MergeAtomicOPs mergeState mergeCur [mergeVal]).2.1 = [mergeCur] ∧
    (MergeAtomicOPs mergeState mergeCur [mergeVal]).2.2 = [mergeVal] := by
  refine ⟨rfl, ?_, ?_, ?_⟩ <;> rfl

/-- C2 amended: ScanMergedValue invokes the internal merge with
mergePutFlag = true and is_internal_key = false, so the read/scan path folds
at most one trailing Value record into the consolidated result, while
MergeAtomicOPs invokes it with mergePutFlag = false and is_internal_key =
true, so the compaction path never folds a trailing Value record. -/
theorem claim_C2_amended (s : CompactState) (cur : Record) (it : List Record) :
    ScanMergedValue s cur it = InternalMergeProcess s cur it true false ∧
    MergeAtomicOPs s cur it = InternalMergeProcess s cur it false true ∧
    ((MergeAtomicOPs s cur it).2.1.drop 1).countP
      (fun x => decide (x.type = tktValue)) = 0 ∧
    ((ScanMergedValue s cur it).2.1.drop 1).countP
      (fun x => decide (x.type = tktValue)) ≤ 1 := by
  refine ⟨rfl, rfl, ?_, ?_⟩
  · unfold MergeAtomicOPs InternalMergeProcess
    by_cases h : IsAtomicOP s.m_cur_type
    · obtain ⟨ext, he, _, hz⟩ := mergeLoop_fold_spec s false it s.m_cur_ts 0 [cur]
      simp [h, he, hz rfl]
    · simp [h]
  · unfold ScanMergedValue InternalMergeProcess
    by_cases h : IsAtomicOP s.m_cur_type
    · obtain ⟨ext, he, hc, _⟩ := mergeLoop_fold_spec s true it s.m_cur_ts 0 [cur]
      simp only [h, not_true_eq_false, if_neg, ite_false, ite_true]
      simp [h, he]
      omega
    · simp [h]

/-! Claim C4. -/

/-- C4 counterexample: there is no uniform bound on the number of records a
single InternalMergeProcess call consumes. With merge_put_flag = false and a
same-cell run consisting only of atomic mutation records, the cap counter
never advances, so for every candidate bound B the run of length B + 1 is
consumed in full. -/
theorem claim_C4_counterexample :
    ¬ ∃ B : Nat, ∀ (s : CompactState) (cur : Record) (it : List Record)
        (flag ik : Bool),
        it.length - ((InternalMergeProcess s cur it flag ik).2.2).length ≤ B := by
  rintro ⟨B, hB⟩
  have h := hB mergeState mergeCur (allAtomicRun (B + 1)) false true
  rw [show (InternalMergeProcess mergeState mergeCur (allAtomicRun (B + 1))
        false true).2.2 = [] by
    unfold InternalMergeProcess
    rw [if_neg (by simp [mergeState, IsAtomicOP])]
    exact mergeLoop_allAtomic (B + 1) mergeState.m_cur_ts [mergeCur]] at h
  simp [allAtomicRun] at h

/-- C4 amended: once the cap counter reaches its limit of one folded version,
the fold loop stops unconditionally regardless of how many records remain; the
counter advances only when a Value record is folded, which requires
mergePutFlag = true, so a mergePutFlag = false run consisting only of atomic
mutation records never reaches the limit and the call consumes the entire
in-cell run — the cap bounds folded Value records, not records consumed. -/
theorem claim_C4_amended :
    (∀ (s : CompactState) (flag : Bool) (lastTs : Int) (vn : Nat)
        (acc it : List Record),
        mergeLoop s flag lastTs (vn + 1) acc it = (acc, it)) ∧
    (∀ n : Nat,
        (InternalMergeProcess mergeState mergeCur (allAtomicRun n)
          false true).2.2 = []) := by
  constructor
  · exact mergeLoop_stopped
  · intro n
    unfold InternalMergeProcess
    rw [if_neg (by simp [mergeState, IsAtomicOP])]
    exact mergeLoop_allAtomic n mergeState.m_cur_ts [mergeCur]

/-! Claim C9. -/

/-- C9: the scanning decision variant is deterministic over a job: two
independently constructed fresh instances built from the same schema produce
identical verdict sequences over any finite input record sequence. -/
theorem claim_C9_deterministic (schema : TableSchema) (rs : List Record)
    (s1 s2 : CompactState)
    (h1 : s1 = NewInstance schema) (h2 : s2 = NewInstance schema) :
    runScanDrop schema s1 rs = runScanDrop schema s2 rs := by
  rw [h1, h2]

/-- C9 witness: two fresh instances over a concrete two-record input. -/
theorem claim_C9_witness :
    runScanDrop schemaA (NewInstance schemaA) [delLatestRec, atomicRec]
      = runScanDrop schemaA (NewInstance schemaA) [delLatestRec, atomicRec] :=
  claim_C9_deterministic schemaA [delLatestRec, atomicRec]
    (NewInstance schemaA) (NewInstance schemaA) rfl rfl

/-! Helper lemmas about the decision tails. -/

/-- For a record type that is neither Value nor atomic, dropTail keeps the
record and leaves the state untouched. -/
theorem dropTail_marker (schema : TableSchema) (cf_id : Option Nat)
    (t : TeraKeyType) (s : CompactState)
    (h1 : t ≠ tktValue) (h2 : IsAtomicOP t = false) :
    dropTail schema cf_id t s = (false, s) := by
  simp [dropTail, h1, h2]

/-- For a record type that is neither Value nor atomic, scanTail drops the
record and leaves the state untouched. -/
theorem scanTail_marker (schema : TableSchema) (cf_id : Option Nat)
    (t : TeraKeyType) (s : CompactState)
    (h1 : t ≠ tktValue) (h2 : IsAtomicOP t = false) :
    scanTail schema cf_id t s = (true, s) := by
  unfold scanTail
  rw [if_pos ⟨h1, by simp [h2]⟩]

/-- In both variants, a record suppressed by the no-boundary tombstone chain
gets the drop verdict from Drop. -/
theorem drop_fst_of_suppressed (schema : TableSchema) (s : CompactState)
    (r : Record) (h : suppressedByTombstone s r) :
    (Drop schema s r).1 = true := by
  obtain ⟨hk, hrest⟩ := h
  have hkne : ¬ (r.key ≠ s.m_last_key) := by simp [hk]
  by_cases hcf : r.type ≠ tktDel ∧ (DropByColumnFamily schema r.col).1
  · unfold Drop; rw [if_pos hcf]
  · unfold Drop
    rw [if_neg hcf, if_neg hkne]
    rcases hrest with hrow | ⟨hc, hrest⟩
    · rw [if_pos hrow]
    · by_cases hrow : s.m_del_row_ts ≥ r.ts
      · rw [if_pos hrow]
      · have hcne : ¬ (r.col ≠ s.m_last_col) := by simp [hc]
        rcases hrest with hcol | ⟨hq, hqts⟩
        · rw [if_neg hrow, if_neg hcne, if_pos hcol]
        · by_cases hcol : s.m_del_col_ts > r.ts
          · rw [if_neg hrow, if_neg hcne, if_pos hcol]
          · have hqne : ¬ (r.qual ≠ s.m_last_qual) := by simp [hq]
            rw [if_neg hrow, if_neg hcne, if_neg hcol, if_neg hqne, if_pos hqts]

/-- A record suppressed by the no-boundary tombstone chain gets the drop
verdict from ScanDrop. -/
theorem scanDrop_fst_of_suppressed (schema : TableSchema) (s : CompactState)
    (r : Record) (h : suppressedByTombstone s r) :
    (ScanDrop schema s r).1 = true := by
  obtain ⟨hk, hrest⟩ := h
  have hkne : ¬ (r.key ≠ s.m_last_key) := by simp [hk]
  by_cases hcf : r.type ≠ tktDel ∧ (DropByColumnFamily schema r.col).1
  · unfold ScanDrop; rw [if_pos hcf]
  · unfold ScanDrop
    rw [if_neg hcf, if_neg hkne]
    rcases hrest with hrow | ⟨hc, hrest⟩
    · rw [if_pos hrow]
    · by_cases hrow : s.m_del_row_ts ≥ r.ts
      · rw [if_pos hrow]
      · have hcne : ¬ (r.col ≠ s.m_last_col) := by simp [hc]
        rcases hrest with hcol | ⟨hq, hqts⟩
        · rw [if_neg hrow, if_neg hcne, if_pos hcol]
        · by_cases hcol : s.m_del_col_ts > r.ts
          · rw [if_neg hrow, if_neg hcne, if_pos hcol]
          · have hqne : ¬ (r.qual ≠ s.m_last_qual) := by simp [hq]
            rw [if_neg hrow, if_neg hcne, if_neg hcol, if_neg hqne, if_pos hqts]

/-- A present column family is never dropped by DropByColumnFamily. -/
theorem cf_keep_of_present (schema : TableSchema) (col : String)
    (h : cfIndexs schema col ≠ none) :
    (DropByColumnFamily schema col).1 = false := by
  rcases hc : cfIndexs schema col with _ | i
  · exact absurd hc h
  · simp [DropByColumnFamily, hc]

/-- dropTail never touches the tombstone timestamps. -/
theorem dropTail_tombstones (schema : TableSchema) (cf_id : Option Nat)
    (t : TeraKeyType) (s : CompactState) :
    (dropTail schema cf_id t s).2.m_del_row_ts = s.m_del_row_ts ∧
    (dropTail schema cf_id t s).2.m_del_col_ts = s.m_del_col_ts ∧
    (dropTail schema cf_id t s).2.m_del_qual_ts = s.m_del_qual_ts := by
  refine ⟨?_, ?_, ?_⟩ <;> (unfold dropTail; split_ifs <;> rfl)

/-- scanTail never touches the tombstone timestamps. -/
theorem scanTail_tombstones (schema : TableSchema) (cf_id : Option Nat)
    (t : TeraKeyType) (s : CompactState) :
    (scanTail schema cf_id t s).2.m_del_row_ts = s.m_del_row_ts ∧
    (scanTail schema cf_id t s).2.m_del_col_ts = s.m_del_col_ts ∧
    (scanTail schema cf_id t s).2.m_del_qual_ts = s.m_del_qual_ts := by
  refine ⟨?_, ?_, ?_⟩ <;> (unfold scanTail; split_ifs <;> rfl)

/-! Claim C8. -/

set_option maxHeartbeats 1000000 in
/-- Every record whose type is neither Value nor atomic gets the drop verdict
from ScanDrop, on any state. -/
theorem scanDrop_fst_marker (schema : TableSchema) (s : CompactState)
    (r : Record) (h1 : r.type ≠ tktValue) (h2 : IsAtomicOP r.type = false) :
    (ScanDrop schema s r).1 = true := by
  have hm : ∀ (cf : Option Nat) (st : CompactState),
      (scanTail schema cf r.type st).1 = true := fun cf st => by
    rw [scanTail_marker schema cf r.type st h1 h2]
  unfold ScanDrop
  split_ifs <;> first | exact hm _ _ | rfl

/-- C8: in ScanDrop, every delete marker (DeleteRow, DeleteColumnFamily,
DeleteQualifierAll, DeleteQualifierLatest) receives the verdict drop on every
state — in particular whenever the call reaches the post-bookkeeping stage —
so no delete marker is ever kept in the scan output, even though its tombstone
effect was first registered in the decision state. -/
theorem claim_C8_markers_dropped (schema : TableSchema) (s : CompactState)
    (r : Record) :
    (ScanDrop schema s { r with type := tktDel }).1 = true ∧
    (ScanDrop schema s { r with type := tktDelColumn }).1 = true ∧
    (ScanDrop schema s { r with type := tktDelQualifiers }).1 = true ∧
    (ScanDrop schema s { r with type := tktDelQualifier }).1 = true :=
  ⟨scanDrop_fst_marker schema s _ (by simp) (by simp [IsAtomicOP]),
   scanDrop_fst_marker schema s _ (by simp) (by simp [IsAtomicOP]),
   scanDrop_fst_marker schema s _ (by simp) (by simp [IsAtomicOP]),
   scanDrop_fst_marker schema s _ (by simp) (by simp [IsAtomicOP])⟩

/-! Claim C3. -/

/-- C3: for a record that crosses no boundary, both variants apply the
tombstone suppression checks in the fixed priority row, then column family,
then qualifier: an active row tombstone with timestamp at or above the
record's drops it; failing that, an active column-family tombstone with
strictly larger timestamp drops it; failing that, an active qualifier
tombstone with strictly larger timestamp drops it. -/
theorem claim_C3_tombstone_priority (schema : TableSchema) (s : CompactState)
    (r : Record) (hkey : r.key = s.m_last_key) (hcol : r.col = s.m_last_col)
    (hqual : r.qual = s.m_last_qual) :
    (s.m_del_row_ts ≠ -1 → s.m_del_row_ts ≥ r.ts →
      (Drop schema s r).1 = true ∧ (ScanDrop schema s r).1 = true) ∧
    (s.m_del_row_ts < r.ts → s.m_del_col_ts ≠ -1 → s.m_del_col_ts > r.ts →
      (Drop schema s r).1 = true ∧ (ScanDrop schema s r).1 = true) ∧
    (s.m_del_row_ts < r.ts → s.m_del_col_ts ≤ r.ts → s.m_del_qual_ts ≠ -1 →
      s.m_del_qual_ts > r.ts →
      (Drop schema s r).1 = true ∧ (ScanDrop schema s r).1 = true) := by
  refine ⟨fun _ hr => ⟨?_, ?_⟩, fun _ _ hc => ⟨?_, ?_⟩,
    fun _ _ _ hq => ⟨?_, ?_⟩⟩
  · exact drop_fst_of_suppressed schema s r ⟨hkey, Or.inl hr⟩
  · exact scanDrop_fst_of_suppressed schema s r ⟨hkey, Or.inl hr⟩
  · exact drop_fst_of_suppressed schema s r ⟨hkey, Or.inr ⟨hcol, Or.inl hc⟩⟩
  · exact scanDrop_fst_of_suppressed schema s r ⟨hkey, Or.inr ⟨hcol, Or.inl hc⟩⟩
  · exact drop_fst_of_suppressed schema s r
      ⟨hkey, Or.inr ⟨hcol, Or.inr ⟨hqual, hq⟩⟩⟩
  · exact scanDrop_fst_of_suppressed schema s r
      ⟨hkey, Or.inr ⟨hcol, Or.inr ⟨hqual, hq⟩⟩⟩

/-- C3 witness: a concrete no-boundary record under an active row tombstone. -/
theorem claim_C3_witness :
    (Drop schemaA
      { mergeState with m_del_row_ts := 9 } ⟨"r", "cf", "q", 8, tktValue, ""⟩).1
      = true ∧
    (ScanDrop schemaA
      { mergeState with m_del_row_ts := 9 } ⟨"r", "cf", "q", 8, tktValue, ""⟩).1
      = true :=
  (claim_C3_tombstone_priority schemaA { mergeState with m_del_row_ts := 9 }
    ⟨"r", "cf", "q", 8, tktValue, ""⟩ rfl rfl rfl).1 (by decide) (by decide)

/-! Claim C7. -/

/-- C7: a record whose column family is absent from the column-family index is
dropped by both variants regardless of its type, except a DeleteRow record,
for which the lookup is skipped: its verdict and state update are the same
under every schema, so it is never dropped on that ground. -/
theorem claim_C7_unknown_cf (schema : TableSchema) (s : CompactState)
    (r : Record) :
    (cfIndexs schema r.col = none → r.type ≠ tktDel →
      (Drop schema s r).1 = true ∧ (ScanDrop schema s r).1 = true) ∧
    (r.type = tktDel → ∀ schema2 : TableSchema,
      Drop schema s r = Drop schema2 s r ∧
      ScanDrop schema s r = ScanDrop schema2 s r) := by
  constructor
  · intro habs hnd
    constructor
    · unfold Drop
      rw [if_pos ⟨hnd, by simp [DropByColumnFamily, habs]⟩]
    · unfold ScanDrop
      rw [if_pos ⟨hnd, by simp [DropByColumnFamily, habs]⟩]
  · intro hdel schema2
    constructor
    · simp only [Drop, hdel]
      simp [dropTail, IsAtomicOP]
    · simp only [ScanDrop, hdel]
      simp [scanTail, IsAtomicOP]

/-- C7 witness: a Value record under an unknown column family is dropped by
both variants, and a DeleteRow record's outcome is schema-independent. -/
theorem claim_C7_witness :
    (Drop schemaA (NewInstance schemaA) ⟨"r", "nope", "q", 5, tktValue, ""⟩).1
      = true ∧
    (ScanDrop schemaA (NewInstance schemaA) ⟨"r", "nope", "q", 5, tktValue, ""⟩).1
      = true ∧
    Drop schemaA (NewInstance schemaA) ⟨"r", "nope", "q", 5, tktDel, ""⟩
      = Drop [] (NewInstance schemaA) ⟨"r", "nope", "q", 5, tktDel, ""⟩ := by
  refine ⟨?_, ?_, ?_⟩
  · exact ((claim_C7_unknown_cf schemaA (NewInstance schemaA)
      ⟨"r", "nope", "q", 5, tktValue, ""⟩).1 (by decide) (by decide)).1
  · exact ((claim_C7_unknown_cf schemaA (NewInstance schemaA)
      ⟨"r", "nope", "q", 5, tktValue, ""⟩).1 (by decide) (by decide)).2
  · exact ((claim_C7_unknown_cf schemaA (NewInstance schemaA)
      ⟨"r", "nope", "q", 5, tktDel, ""⟩).2 rfl []).1

/-! Claim C6. -/

/-- The three tombstone timestamps of a state, row level first. -/
def tombstonesOf (s : CompactState) : Int × Int × Int :=
  (s.m_del_row_ts, s.m_del_col_ts, s.m_del_qual_ts)

/-- A record type other than the three cascading delete markers seeds nothing
on a row boundary. -/
theorem seedRowBoundary_other (t : TeraKeyType) (ts : Int) (st : CompactState)
    (h1 : t ≠ tktDel) (h2 : t ≠ tktDelColumn) (h3 : t ≠ tktDelQualifiers) :
    seedRowBoundary t ts st = st := by
  cases t <;> simp_all [seedRowBoundary]

/-- A record type other than DeleteColumnFamily and DeleteQualifierAll seeds
nothing on a column-family boundary. -/
theorem seedColBoundary_other (t : TeraKeyType) (ts : Int) (st : CompactState)
    (h2 : t ≠ tktDelColumn) (h3 : t ≠ tktDelQualifiers) :
    seedColBoundary t ts st = st := by
  cases t <;> simp_all [seedColBoundary]

/-- dropTail leaves the tombstone triple of its state argument unchanged. -/
theorem tombstonesOf_dropTail (schema : TableSchema) (cf_id : Option Nat)
    (t : TeraKeyType) (st : CompactState) :
    tombstonesOf (dropTail schema cf_id t st).2 = tombstonesOf st := by
  obtain ⟨h1, h2, h3⟩ := dropTail_tombstones schema cf_id t st
  unfold tombstonesOf
  rw [h1, h2, h3]

/-- scanTail leaves the tombstone triple of its state argument unchanged. -/
theorem tombstonesOf_scanTail (schema : TableSchema) (cf_id : Option Nat)
    (t : TeraKeyType) (st : CompactState) :
    tombstonesOf (scanTail schema cf_id t st).2 = tombstonesOf st := by
  obtain ⟨h1, h2, h3⟩ := scanTail_tombstones schema cf_id t st
  unfold tombstonesOf
  rw [h1, h2, h3]

/-- The column-family gate does not fire when the type is DeleteRow or the
column family is present in the index. -/
theorem cf_gate_pass (schema : TableSchema) (r : Record)
    (hcf : r.type = tktDel ∨ cfIndexs schema r.col ≠ none) :
    ¬ (r.type ≠ tktDel ∧ (DropByColumnFamily schema r.col).1) := by
  rintro ⟨hnd, hd⟩
  rcases hcf with h | h
  · exact hnd h
  · rw [cf_keep_of_present schema r.col h] at hd
    exact absurd hd (by simp)

/-- On a row boundary, Drop reduces to its tail on the reset-and-seeded
state. -/
theorem drop_rowBoundary_eq (schema : TableSchema) (s : CompactState)
    (r : Record) (hcf : ¬ (r.type ≠ tktDel ∧ (DropByColumnFamily schema r.col).1))
    (hk : r.key ≠ s.m_last_key) :
    Drop schema s r = dropTail schema (dropCfId schema r) r.type
      (seedRowBoundary r.type r.ts (rowReset r (setCur r s))) := by
  unfold Drop
  rw [if_neg hcf, if_pos hk]

/-- On a row boundary, ScanDrop reduces to its tail on the reset-and-seeded
state. -/
theorem scanDrop_rowBoundary_eq (schema : TableSchema) (s : CompactState)
    (r : Record) (hcf : ¬ (r.type ≠ tktDel ∧ (DropByColumnFamily schema r.col).1))
    (hk : r.key ≠ s.m_last_key) :
    ScanDrop schema s r = scanTail schema (dropCfId schema r) r.type
      (seedRowBoundary r.type r.ts (scanRowReset r (setCur r s))) := by
  unfold ScanDrop
  rw [if_neg hcf, if_pos hk]

/-- On a column-family boundary, Drop reduces to its tail on the
reset-and-seeded state. -/
theorem drop_colBoundary_eq (schema : TableSchema) (s : CompactState)
    (r : Record) (hcf : ¬ (r.type ≠ tktDel ∧ (DropByColumnFamily schema r.col).1))
    (hk : r.key = s.m_last_key) (hrow : ¬ (s.m_del_row_ts ≥ r.ts))
    (hc : r.col ≠ s.m_last_col) :
    Drop schema s r = dropTail schema (dropCfId schema r) r.type
      (seedColBoundary r.type r.ts (colReset r (setCur r s))) := by
  unfold Drop
  rw [if_neg hcf, if_neg (by simp [hk]), if_neg hrow, if_pos hc]

/-- On a column-family boundary, ScanDrop reduces to its tail on the
reset-and-seeded state. -/
theorem scanDrop_colBoundary_eq (schema : TableSchema) (s : CompactState)
    (r : Record) (hcf : ¬ (r.type ≠ tktDel ∧ (DropByColumnFamily schema r.col).1))
    (hk : r.key = s.m_last_key) (hrow : ¬ (s.m_del_row_ts ≥ r.ts))
    (hc : r.col ≠ s.m_last_col) :
    ScanDrop schema s r = scanTail schema (dropCfId schema r) r.type
      (seedColBoundary r.type r.ts (scanColReset r (setCur r s))) := by
  unfold ScanDrop
  rw [if_neg hcf, if_neg (by simp [hk]), if_neg hrow, if_pos hc]

/-- C6: on a row-boundary crossing (after all tombstones are reset) a
DeleteRow record seeds all three tombstone timestamps to its timestamp, a
DeleteColumnFamily record seeds the column-family and qualifier ones, a
DeleteQualifierAll record seeds only the qualifier one, and any other type
seeds none; on a column-family boundary the same cascade restricted to
DeleteColumnFamily/DeleteQualifierAll applies (the row tombstone keeping its
prior value). This holds in both decision variants. -/
theorem claim_C6_tombstone_seeding (schema : TableSchema) (s : CompactState)
    (r : Record) (hcf : r.type = tktDel ∨ cfIndexs schema r.col ≠ none) :
    (r.key ≠ s.m_last_key →
      ((r.type = tktDel →
          tombstonesOf (Drop schema s r).2 = (r.ts, r.ts, r.ts) ∧
          tombstonesOf (ScanDrop schema s r).2 = (r.ts, r.ts, r.ts)) ∧
       (r.type = tktDelColumn →
          tombstonesOf (Drop schema s r).2 = (-1, r.ts, r.ts) ∧
          tombstonesOf (ScanDrop schema s r).2 = (-1, r.ts, r.ts)) ∧
       (r.type = tktDelQualifiers →
          tombstonesOf (Drop schema s r).2 = (-1, -1, r.ts) ∧
          tombstonesOf (ScanDrop schema s r).2 = (-1, -1, r.ts)) ∧
       (r.type ≠ tktDel → r.type ≠ tktDelColumn → r.type ≠ tktDelQualifiers →
          tombstonesOf (Drop schema s r).2 = (-1, -1, -1) ∧
          tombstonesOf (ScanDrop schema s r).2 = (-1, -1, -1)))) ∧
    (r.key = s.m_last_key → ¬ (s.m_del_row_ts ≥ r.ts) → r.col ≠ s.m_last_col →
      ((r.type = tktDelColumn →
          tombstonesOf (Drop schema s r).2 = (s.m_del_row_ts, r.ts, r.ts) ∧
          tombstonesOf (ScanDrop schema s r).2 = (s.m_del_row_ts, r.ts, r.ts)) ∧
       (r.type = tktDelQualifiers →
          tombstonesOf (Drop schema s r).2 = (s.m_del_row_ts, -1, r.ts) ∧
          tombstonesOf (ScanDrop schema s r).2 = (s.m_del_row_ts, -1, r.ts)) ∧
       (r.type ≠ tktDelColumn → r.type ≠ tktDelQualifiers →
          tombstonesOf (Drop schema s r).2 = (s.m_del_row_ts, -1, -1) ∧
          tombstonesOf (ScanDrop schema s r).2 = (s.m_del_row_ts, -1, -1)))) := by
  have hcf1 := cf_gate_pass schema r hcf
  constructor
  · intro hk
    have hd := drop_rowBoundary_eq schema s r hcf1 hk
    have hs := scanDrop_rowBoundary_eq schema s r hcf1 hk
    refine ⟨fun ht => ⟨?_, ?_⟩, fun ht => ⟨?_, ?_⟩, fun ht => ⟨?_, ?_⟩,
      fun h1 h2 h3 => ⟨?_, ?_⟩⟩
    · rw [hd, tombstonesOf_dropTail, ht]; rfl
    · rw [hs, tombstonesOf_scanTail, ht]; rfl
    · rw [hd, tombstonesOf_dropTail, ht]; rfl
    · rw [hs, tombstonesOf_scanTail, ht]; rfl
    · rw [hd, tombstonesOf_dropTail, ht]; rfl
    · rw [hs, tombstonesOf_scanTail, ht]; rfl
    · rw [hd, tombstonesOf_dropTail, seedRowBoundary_other r.type r.ts _ h1 h2 h3]
      rfl
    · rw [hs, tombstonesOf_scanTail, seedRowBoundary_other r.type r.ts _ h1 h2 h3]
      rfl
  · intro hk hrow hc
    have hd := drop_colBoundary_eq schema s r hcf1 hk hrow hc
    have hs := scanDrop_colBoundary_eq schema s r hcf1 hk hrow hc
    refine ⟨fun ht => ⟨?_, ?_⟩, fun ht => ⟨?_, ?_⟩, fun h2 h3 => ⟨?_, ?_⟩⟩
    · rw [hd, tombstonesOf_dropTail, ht]; rfl
    · rw [hs, tombstonesOf_scanTail, ht]; rfl
    · rw [hd, tombstonesOf_dropTail, ht]; rfl
    · rw [hs, tombstonesOf_scanTail, ht]; rfl
    · rw [hd, tombstonesOf_dropTail, seedColBoundary_other r.type r.ts _ h2 h3]
      rfl
    · rw [hs, tombstonesOf_scanTail, seedColBoundary_other r.type r.ts _ h2 h3]
      rfl

/-- C6 witness: a DeleteRow record on a row boundary seeds all three levels,
and a DeleteColumnFamily record on a column-family boundary seeds the
column-family and qualifier levels while keeping the row tombstone. -/
theorem claim_C6_witness :
    tombstonesOf (Drop schemaA (NewInstance schemaA)
      ⟨"r", "", "", 10, tktDel, ""⟩).2 = (10, 10, 10) ∧
    tombstonesOf (ScanDrop schemaA (NewInstance schemaA)
      ⟨"r", "", "", 10, tktDel, ""⟩).2 = (10, 10, 10) ∧
    tombstonesOf (Drop schemaA { mergeState with m_last_col := "other" }
      ⟨"r", "cf", "q", 5, tktDelColumn, ""⟩).2 = (-1, 5, 5) ∧
    tombstonesOf (ScanDrop schemaA { mergeState with m_last_col := "other" }
      ⟨"r", "cf", "q", 5, tktDelColumn, ""⟩).2 = (-1, 5, 5) := by
  have h1 := (claim_C6_tombstone_seeding schemaA (NewInstance schemaA)
    ⟨"r", "", "", 10, tktDel, ""⟩ (Or.inl rfl)).1 (by decide)
  have h2 := (claim_C6_tombstone_seeding schemaA
    { mergeState with m_last_col := "other" }
    ⟨"r", "cf", "q", 5, tktDelColumn, ""⟩ (Or.inr (by decide))).2
    (by decide) (by decide) (by decide)
  exact ⟨(h1.1 rfl).1, (h1.1 rfl).2, (h2.1 rfl).1, (h2.1 rfl).2⟩

/-! Claim C5. -/

/-- A Value record for a fixed cell. -/
def valueRec (rowk cf q : String) (ts : Int) : Record :=
  ⟨rowk, cf, q, ts, tktValue, ""⟩

/-- The expected verdicts of n Value records arriving when k versions have
already been counted for the cell: the i-th increments the count to k + i + 1
and is dropped exactly when that exceeds M. -/
def capPattern (M : Nat) : Nat → Nat → List Bool
  | _, 0 => []
  | k, n + 1 => (if k + 1 > M then true else false) :: capPattern M (k + 1) n

/-- A mid-cell Value record with timestamp strictly above the -1 sentinel (no
boundary, all tombstones at the sentinel) marks m_has_put, increments
m_version_num, and is dropped exactly when the incremented count exceeds the
column family's max_versions. A timestamp at or below the sentinel would
instead be caught by the m_del_row_ts >= ts comparison of line 66. -/
theorem drop_value_step (schema : TableSchema) (j : Nat) (s : CompactState)
    (r : Record) (hty : r.type = tktValue)
    (hlook : cfIndexs schema r.col = some j) (hts : (-1 : Int) < r.ts)
    (h1 : r.key = s.m_last_key) (h2 : r.col = s.m_last_col)
    (h3 : r.qual = s.m_last_qual) (h4 : s.m_del_row_ts = -1)
    (h5 : s.m_del_col_ts = -1) (h6 : s.m_del_qual_ts = -1) :
    Drop schema s r =
      (if s.m_version_num + 1 > maxVersionsOf schema j then true else false,
       { s with m_cur_type := r.type, m_cur_ts := r.ts,
                m_has_put := true, m_version_num := s.m_version_num + 1 }) := by
  have hcf1 : ¬ (r.type ≠ tktDel ∧ (DropByColumnFamily schema r.col).1) := by
    rintro ⟨_, hd⟩
    rw [cf_keep_of_present schema r.col (by simp [hlook])] at hd
    exact absurd hd (by simp)
  have hid : dropCfId schema r = some j := by
    unfold dropCfId DropByColumnFamily
    rw [hlook]
    simp [hty]
  unfold Drop
  rw [if_neg hcf1, if_neg (by simp [h1]), if_neg (by rw [h4]; omega),
      if_neg (by simp [h2]), if_neg (by rw [h5]; omega),
      if_neg (by simp [h3]), if_neg (by rw [h6]; omega)]
  unfold dropTail
  rw [if_pos hty, hid]
  simp [setCur]

/-- The scanning analogue of drop_value_step; additionally requires that the
previous record's type was not DeleteQualifierLatest (otherwise the
skip-latest-deleted-version branch would fire) and records the Value type into
m_last_type. -/
theorem scanDrop_value_step (schema : TableSchema) (j : Nat) (s : CompactState)
    (r : Record) (hty : r.type = tktValue)
    (hlook : cfIndexs schema r.col = some j) (hts : (-1 : Int) < r.ts)
    (h1 : r.key = s.m_last_key) (h2 : r.col = s.m_last_col)
    (h3 : r.qual = s.m_last_qual) (h4 : s.m_del_row_ts = -1)
    (h5 : s.m_del_col_ts = -1) (h6 : s.m_del_qual_ts = -1)
    (h7 : s.m_last_type ≠ tktDelQualifier) :
    ScanDrop schema s r =
      (if s.m_version_num + 1 > maxVersionsOf schema j then true else false,
       { s with m_cur_type := r.type, m_cur_ts := r.ts, m_last_type := r.type,
                m_has_put := true, m_version_num := s.m_version_num + 1 }) := by
  have hcf1 : ¬ (r.type ≠ tktDel ∧ (DropByColumnFamily schema r.col).1) := by
    rintro ⟨_, hd⟩
    rw [cf_keep_of_present schema r.col (by simp [hlook])] at hd
    exact absurd hd (by simp)
  have hid : dropCfId schema r = some j := by
    unfold dropCfId DropByColumnFamily
    rw [hlook]
    simp [hty]
  unfold ScanDrop
  rw [if_neg hcf1, if_neg (by simp [h1]), if_neg (by rw [h4]; omega),
      if_neg (by simp [h2]), if_neg (by rw [h5]; omega),
      if_neg (by simp [h3]), if_neg (by rw [h6]; omega),
      if_neg (by simp [hty]), if_neg h7]
  unfold scanTail
  rw [if_neg (by simp [hty]), if_pos hty, hid]
  simp [setCur]

/-- A Value record crossing a row boundary resets the cell state and is then
counted as version 1, dropped exactly when 1 exceeds max_versions. -/
theorem drop_value_first (schema : TableSchema) (j : Nat) (s : CompactState)
    (r : Record) (hty : r.type = tktValue)
    (hlook : cfIndexs schema r.col = some j)
    (hk : r.key ≠ s.m_last_key) :
    Drop schema s r =
      (if 1 > maxVersionsOf schema j then true else false,
       { s with m_last_key := r.key, m_last_col := r.col, m_last_qual := r.qual,
                m_del_row_ts := -1, m_del_col_ts := -1, m_del_qual_ts := -1,
                m_version_num := 1, m_has_put := true,
                m_cur_type := r.type, m_cur_ts := r.ts }) := by
  have hcf1 : ¬ (r.type ≠ tktDel ∧ (DropByColumnFamily schema r.col).1) := by
    rintro ⟨_, hd⟩
    rw [cf_keep_of_present schema r.col (by simp [hlook])] at hd
    exact absurd hd (by simp)
  have hid : dropCfId schema r = some j := by
    unfold dropCfId DropByColumnFamily
    rw [hlook]
    simp [hty]
  rw [drop_rowBoundary_eq schema s r hcf1 hk,
    seedRowBoundary_other r.type r.ts _ (by simp [hty]) (by simp [hty])
      (by simp [hty])]
  unfold dropTail
  rw [if_pos hty, hid]
  simp [rowReset, setCur]

/-- The scanning analogue of drop_value_first: the reset also records the
Value type into m_last_type. -/
theorem scanDrop_value_first (schema : TableSchema) (j : Nat) (s : CompactState)
    (r : Record) (hty : r.type = tktValue)
    (hlook : cfIndexs schema r.col = some j)
    (hk : r.key ≠ s.m_last_key) :
    ScanDrop schema s r =
      (if 1 > maxVersionsOf schema j then true else false,
       { s with m_last_key := r.key, m_last_col := r.col, m_last_qual := r.qual,
                m_last_type := r.type,
                m_del_row_ts := -1, m_del_col_ts := -1, m_del_qual_ts := -1,
                m_version_num := 1, m_has_put := true,
                m_cur_type := r.type, m_cur_ts := r.ts }) := by
  have hcf1 : ¬ (r.type ≠ tktDel ∧ (DropByColumnFamily schema r.col).1) := by
    rintro ⟨_, hd⟩
    rw [cf_keep_of_present schema r.col (by simp [hlook])] at hd
    exact absurd hd (by simp)
  have hid : dropCfId schema r = some j := by
    unfold dropCfId DropByColumnFamily
    rw [hlook]
    simp [hty]
  rw [scanDrop_rowBoundary_eq schema s r hcf1 hk,
    seedRowBoundary_other r.type r.ts _ (by simp [hty]) (by simp [hty])
      (by simp [hty])]
  unfold scanTail
  rw [if_neg (by simp [hty]), if_pos hty, hid]
  simp [scanRowReset, setCur]

/-- Feeding mid-cell Value records with timestamps above the -1 sentinel
through Drop yields the capPattern verdicts. -/
theorem runDrop_values (schema : TableSchema) (j : Nat) (rowk cf q : String)
    (hlook : cfIndexs schema cf = some j) :
    ∀ (l : List Int) (s : CompactState),
      (∀ ts ∈ l, (-1 : Int) < ts) →
      s.m_last_key = rowk → s.m_last_col = cf → s.m_last_qual = q →
      s.m_del_row_ts = -1 → s.m_del_col_ts = -1 → s.m_del_qual_ts = -1 →
      (runDrop schema s (l.map (valueRec rowk cf q))).1
        = capPattern (maxVersionsOf schema j) s.m_version_num l.length := by
  intro l
  induction l with
  | nil =>
    intro s _ _ _ _ _ _ _
    simp [runDrop, capPattern]
  | cons ts l' ih =>
    intro s hpos e1 e2 e3 e4 e5 e6
    have hstep := drop_value_step schema j s (valueRec rowk cf q ts) rfl
      (by simpa [valueRec] using hlook) (hpos ts (by simp))
      (by simp [valueRec, e1]) (by simp [valueRec, e2])
      (by simp [valueRec, e3]) e4 e5 e6
    simp only [List.map_cons, runDrop, hstep]
    rw [ih _ (fun t h => hpos t (by simp [h])) (by simp [e1]) (by simp [e2])
      (by simp [e3]) (by simp [e4]) (by simp [e5]) (by simp [e6])]
    simp [capPattern]

/-- Feeding mid-cell Value records with timestamps above the -1 sentinel
through ScanDrop yields the capPattern verdicts. -/
theorem runScanDrop_values (schema : TableSchema) (j : Nat) (rowk cf q : String)
    (hlook : cfIndexs schema cf = some j) :
    ∀ (l : List Int) (s : CompactState),
      (∀ ts ∈ l, (-1 : Int) < ts) →
      s.m_last_key = rowk → s.m_last_col = cf → s.m_last_qual = q →
      s.m_del_row_ts = -1 → s.m_del_col_ts = -1 → s.m_del_qual_ts = -1 →
      s.m_last_type = tktValue →
      (runScanDrop schema s (l.map (valueRec rowk cf q))).1
        = capPattern (maxVersionsOf schema j) s.m_version_num l.length := by
  intro l
  induction l with
  | nil =>
    intro s _ _ _ _ _ _ _ _
    simp [runScanDrop, capPattern]
  | cons ts l' ih =>
    intro s hpos e1 e2 e3 e4 e5 e6 e7
    have hstep := scanDrop_value_step schema j s (valueRec rowk cf q ts) rfl
      (by simpa [valueRec] using hlook) (hpos ts (by simp))
      (by simp [valueRec, e1]) (by simp [valueRec, e2])
      (by simp [valueRec, e3]) e4 e5 e6 (by simp [e7])
    simp only [List.map_cons, runScanDrop, hstep]
    rw [ih _ (fun t h => hpos t (by simp [h])) (by simp [e1]) (by simp [e2])
      (by simp [e3]) (by simp [e4]) (by simp [e5]) (by simp [e6])
      (by simp [valueRec])]
    simp [capPattern]

/-- The capPattern verdicts are: drop exactly the records whose (k-offset)
index reaches the cap. -/
theorem capPattern_eq (M : Nat) :
    ∀ (n k : Nat), capPattern M k n
      = (List.range n).map (fun i => decide (M < k + i + 1)) := by
  intro n
  induction n with
  | zero => intro k; simp [capPattern]
  | succ n ih =>
    intro k
    rw [show capPattern M k (n + 1)
        = (if k + 1 > M then true else false) :: capPattern M (k + 1) n from rfl,
      ih (k + 1), List.range_succ_eq_map, List.map_cons, List.map_map]
    refine List.cons_eq_cons.mpr ⟨?_, List.map_congr_left ?_⟩
    · by_cases h : M < k + 1 <;> simp [h]
    · intro i _
      simp only [Function.comp]
      exact decide_eq_decide.mpr (by omega)

/-- Counting the keep verdicts in the cap pattern: min n M survive. -/
theorem count_false_cap (M : Nat) :
    ∀ n : Nat,
      (((List.range n).map (fun i => decide (M ≤ i))).count false) = min n M := by
  intro n
  induction n with
  | zero => simp
  | succ n ih =>
    rw [List.range_succ, List.map_append, List.count_append]
    by_cases h : M ≤ n
    · have hd : decide (M ≤ n) = true := by simp [h]
      simp [hd, ih]
      omega
    · have hd : decide (M ≤ n) = false := by simp [h]
      simp [hd, ih]
      omega

/-- A one-column-family schema with max_versions = 2, for the C5 concrete
theorems. -/
def schemaB : TableSchema := [⟨"cf", 2⟩]

/-- C5 counterexample: two Value records for one cell in strictly descending
timestamp order, against max_versions = 2, with no tombstone ever active (all
three tombstone timestamps stay at the -1 sentinel throughout): the claim
requires both to be kept (min(2, 2) = 2), but with timestamps -5 and -6 the
sentinel comparison m_del_row_ts >= ts (line 66) fires on the second record in
both variants, so only one record keeps. -/
theorem claim_C5_counterexample :
    ([(-5 : Int), -6].Pairwise (· > ·)) ∧
    (runDrop schemaB (NewInstance schemaB)
      ([(-5 : Int), -6].map (valueRec "r" "cf" "q"))).1 = [false, true] ∧
    (runScanDrop schemaB (NewInstance schemaB)
      ([(-5 : Int), -6].map (valueRec "r" "cf" "q"))).1 = [false, true] ∧
    (runDrop schemaB (NewInstance schemaB)
      ([(-5 : Int), -6].map (valueRec "r" "cf" "q"))).2.m_del_row_ts = -1 ∧
    (runDrop schemaB (NewInstance schemaB)
      ([(-5 : Int), -6].map (valueRec "r" "cf" "q"))).2.m_del_col_ts = -1 ∧
    (runDrop schemaB (NewInstance schemaB)
      ([(-5 : Int), -6].map (valueRec "r" "cf" "q"))).2.m_del_qual_ts = -1 ∧
    (runDrop schemaB (NewInstance schemaB)
      ([(-5 : Int), -6].map (valueRec "r" "cf" "q"))).1.count false ≠ min 2 2 := by
  refine ⟨by decide, rfl, rfl, rfl, rfl, rfl, by decide⟩

/-- C5 amended: for a cell with nonempty row key whose column family resolves
to index j with max_versions M, feeding any sequence of Value records for that
cell in strictly descending timestamp order with every timestamp strictly
above the -1 tombstone sentinel from a fresh instance, both variants keep
exactly min(count, M) records — the first ones, i.e. the M with the highest
timestamps — and drop every Value record beyond the cap. (For timestamps at or
below the sentinel the row-tombstone comparison m_del_row_ts >= ts fires with
no active tombstone and drops in-cap records, as the counterexample shows; a
nonempty row key makes the first record cross a row boundary, as in any real
sorted stream — with an empty one the C++ would read its uninitialized
m_last_type field.) -/
theorem claim_C5_version_cap (schema : TableSchema) (rowk cf q : String)
    (M j : Nat) (tss : List Int) (hrow : rowk ≠ "")
    (hlook : cfIndexs schema cf = some j)
    (hM : maxVersionsOf schema j = M)
    (hsent : ∀ ts ∈ tss, (-1 : Int) < ts)
    (_hdesc : tss.Pairwise (· > ·)) :
    (runDrop schema (NewInstance schema) (tss.map (valueRec rowk cf q))).1
      = (List.range tss.length).map (fun i => decide (M ≤ i)) ∧
    (runScanDrop schema (NewInstance schema) (tss.map (valueRec rowk cf q))).1
      = (List.range tss.length).map (fun i => decide (M ≤ i)) ∧
    (runDrop schema (NewInstance schema) (tss.map (valueRec rowk cf q))).1.count false
      = min tss.length M := by
  have hpat : ∀ n : Nat, capPattern M 0 n
      = (List.range n).map (fun i => decide (M ≤ i)) := by
    intro n
    rw [capPattern_eq M n 0]
    exact List.map_congr_left fun i _ => decide_eq_decide.mpr (by omega)
  have hmain :
      (runDrop schema (NewInstance schema) (tss.map (valueRec rowk cf q))).1
        = (List.range tss.length).map (fun i => decide (M ≤ i)) ∧
      (runScanDrop schema (NewInstance schema) (tss.map (valueRec rowk cf q))).1
        = (List.range tss.length).map (fun i => decide (M ≤ i)) := by
    cases tss with
    | nil =>
      constructor <;> simp [runDrop, runScanDrop]
    | cons ts tss' =>
      have hpos : ∀ t ∈ tss', (-1 : Int) < t := fun t h => hsent t (by simp [h])
      constructor
      · have hfirst := drop_value_first schema j (NewInstance schema)
          (valueRec rowk cf q ts) rfl
          (by simpa [valueRec] using hlook)
          (by simpa [valueRec, NewInstance] using hrow)
        simp only [List.map_cons, runDrop, hfirst]
        rw [runDrop_values schema j rowk cf q hlook tss' _ hpos
          (by simp [valueRec]) (by simp [valueRec]) (by simp [valueRec])
          (by simp) (by simp) (by simp)]
        simp only [List.length_cons]
        rw [← hpat (tss'.length + 1), hM]
        simp [capPattern]
      · have hfirst := scanDrop_value_first schema j (NewInstance schema)
          (valueRec rowk cf q ts) rfl
          (by simpa [valueRec] using hlook)
          (by simpa [valueRec, NewInstance] using hrow)
        simp only [List.map_cons, runScanDrop, hfirst]
        rw [runScanDrop_values schema j rowk cf q hlook tss' _ hpos
          (by simp [valueRec]) (by simp [valueRec]) (by simp [valueRec])
          (by simp) (by simp) (by simp) (by simp [valueRec])]
        simp only [List.length_cons]
        rw [← hpat (tss'.length + 1), hM]
        simp [capPattern]
  refine ⟨hmain.1, hmain.2, ?_⟩
  rw [hmain.1]
  exact count_false_cap M tss.length

/-- C5 witness: three Value records at timestamps 3, 2, 1 against
max_versions = 2 keep the two most recent and drop the third, in both
variants. -/
theorem claim_C5_witness :
    (runDrop schemaB (NewInstance schemaB)
      ([(3 : Int), 2, 1].map (valueRec "r" "cf" "q"))).1 = [false, false, true] ∧
    (runScanDrop schemaB (NewInstance schemaB)
      ([(3 : Int), 2, 1].map (valueRec "r" "cf" "q"))).1 = [false, false, true] ∧
    (runDrop schemaB (NewInstance schemaB)
      ([(3 : Int), 2, 1].map (valueRec "r" "cf" "q"))).1.count false = min 3 2 := by
  obtain ⟨h1, h2, h3⟩ := claim_C5_version_cap schemaB "r" "cf" "q" 2 0 [3, 2, 1]
    (by decide) (by decide) (by decide) (by decide) (by decide)
  exact ⟨h1.trans (by decide), h2.trans (by decide), h3.trans (by decide)⟩

/-! Claim C10. -/

/-- C10: in the streaming variant, a delete marker that passes the
column-family check and is not suppressed by the active-tombstone chain is
kept (Drop returns false): the streaming variant writes tombstone markers
through to the compaction output. -/
theorem claim_C10_drop_keeps_markers (schema : TableSchema) (s : CompactState)
    (r : Record)
    (hmk : r.type = tktDel ∨ r.type = tktDelColumn ∨
      r.type = tktDelQualifiers ∨ r.type = tktDelQualifier)
    (hcf : r.type = tktDel ∨ cfIndexs schema r.col ≠ none)
    (hsup : ¬ suppressedByTombstone s r) :
    (Drop schema s r).1 = false := by
  have h1 : r.type ≠ tktValue := by
    rcases hmk with h | h | h | h <;> simp [h]
  have h2 : IsAtomicOP r.type = false := by
    rcases hmk with h | h | h | h <;> simp [h, IsAtomicOP]
  have hcf1 : ¬ (r.type ≠ tktDel ∧ (DropByColumnFamily schema r.col).1) := by
    rintro ⟨hnd, hd⟩
    rcases hcf with h | h
    · exact hnd h
    · rw [cf_keep_of_present schema r.col h] at hd
      exact absurd hd (by simp)
  have hmk2 : ∀ (cf : Option Nat) (st : CompactState),
      (dropTail schema cf r.type st).1 = false := fun cf st => by
    rw [dropTail_marker schema cf r.type st h1 h2]
  unfold Drop
  rw [if_neg hcf1]
  by_cases hk : r.key ≠ s.m_last_key
  · rw [if_pos hk]; exact hmk2 _ _
  · push_neg at hk
    have hrow : ¬ (s.m_del_row_ts ≥ r.ts) := fun hge => hsup ⟨hk, Or.inl hge⟩
    rw [if_neg (by simp [hk]), if_neg hrow]
    by_cases hc : r.col ≠ s.m_last_col
    · rw [if_pos hc]; exact hmk2 _ _
    · push_neg at hc
      have hcolts : ¬ (s.m_del_col_ts > r.ts) := fun hgt =>
        hsup ⟨hk, Or.inr ⟨hc, Or.inl hgt⟩⟩
      rw [if_neg (by simp [hc]), if_neg hcolts]
      by_cases hq : r.qual ≠ s.m_last_qual
      · rw [if_pos hq]; exact hmk2 _ _
      · push_neg at hq
        have hqts : ¬ (s.m_del_qual_ts > r.ts) := fun hgt =>
          hsup ⟨hk, Or.inr ⟨hc, Or.inr ⟨hq, hgt⟩⟩⟩
        rw [if_neg (by simp [hq]), if_neg hqts]
        exact hmk2 _ _

/-- C10 witness: a DeleteColumnFamily marker on a fresh state with a known
column family is kept by Drop. -/
theorem claim_C10_witness :
    (Drop schemaA (NewInstance schemaA) ⟨"r", "cf", "q", 5, tktDelColumn, ""⟩).1
      = false :=
  claim_C10_drop_keeps_markers schemaA (NewInstance schemaA)
    ⟨"r", "cf", "q", 5, tktDelColumn, ""⟩ (by decide)
    (Or.inr (by decide)) (by decide)

end TeraCompact
